import Mathlib

/-!
Verification development for the gprofiler merge-and-enrichment pipeline
(`src/gprofiler/merge.py`).

The source file is shallowly embedded below:
* Python `Counter` / `dict` values become association lists with
  insertion-order update semantics (`incr`, `alSet`, `alLookup`);
* Python floats become exact rationals (`ℚ`);
* `random.random()` is modelled as an explicit family of draws passed in as a
  function argument;
* fallible code (assertions, `KeyError`) returns `Option`;
* string primitives (`str.rpartition`, `str.rsplit`, `str.split`,
  `str.splitlines`, `int(...)`) are modelled character-by-character.
-/

/-! ## Association lists with Python dict semantics -/

/-- `Counter`/`dict` lookup: first (unique) binding of the key, if any. -/
def alLookup {κ α : Type} [DecidableEq κ] : List (κ × α) → κ → Option α
  | [], _ => none
  | (k, v) :: rest, key => if k = key then some v else alLookup rest key

/-- `d[key] = v` on a Python dict: overwrite in place if present, else append
(Python dicts preserve insertion order). -/
def alSet {κ α : Type} [DecidableEq κ] : List (κ × α) → κ → α → List (κ × α)
  | [], key, v => [(key, v)]
  | (k, w) :: rest, key, v =>
    if k = key then (k, v) :: rest else (k, w) :: alSet rest key v

/-- A stack-to-sample-count mapping (`StackToSampleCount = Counter` in the
source): stack signature → count. -/
abbrev StackToSampleCount := List (String × Int)

/-- `counter[key] += n`: add at the existing binding, else append `(key, n)`
(a missing `Counter` key reads as `0`). -/
def incr : StackToSampleCount → String → Int → StackToSampleCount
  | [], key, n => [(key, n)]
  | (k, v) :: rest, key, n =>
    if k = key then (k, v + n) :: rest else (k, v) :: incr rest key n

/-- `counter[key]` as a total read: `0` for a missing key. -/
def lookupCount : StackToSampleCount → String → Int
  | [], _ => 0
  | (k, v) :: rest, key => if k = key then v else lookupCount rest key

/-- Total count of samples in a mapping (`sum(stacks.values())`). -/
def sumCounts : StackToSampleCount → Int
  | [] => 0
  | p :: rest => p.2 + sumCounts rest

/-- `list.index(a)`: index of the first occurrence (meaningful only when the
element is present, which is the only way the source calls it). -/
def pyIndex {α : Type} [DecidableEq α] : List α → α → ℕ
  | [], _ => 0
  | x :: rest, a => if x = a then 0 else pyIndex rest a + 1

/-! ## Python string primitives -/

/-- Python whitespace for `str.strip` (the exotic extra codepoints Python also
strips are not modelled). -/
def isPySpace (c : Char) : Bool := c.isWhitespace

/-- `line.strip() == ""`. -/
def pyIsBlank (s : String) : Bool := s.data.all isPySpace

/-- `line.startswith("#")`. -/
def pyStartsHash (s : String) : Bool :=
  match s.data with
  | '#' :: _ => true
  | [] => false
  | _ :: _ => false

/-- Split at the first occurrence of `c`: `some (before, after)`, or `none`
when `c` does not occur.  This is `s.split(c, maxsplit=1)` with the
two-element unpacking that raises `ValueError` when `c` is absent. -/
def splitFirstOn (c : Char) : List Char → Option (List Char × List Char)
  | [] => none
  | x :: xs =>
    if x = c then some ([], xs)
    else (splitFirstOn c xs).map (fun p => (x :: p.1, p.2))

/-- Split at the last occurrence of `c` (`s.rsplit(c, maxsplit=1)` with
two-element unpacking). -/
def splitLastOn (c : Char) (s : List Char) : Option (List Char × List Char) :=
  (splitFirstOn c s.reverse).map (fun p => (p.2.reverse, p.1.reverse))

/-- `line.rpartition(" ")` restricted to the two components the source uses:
`(before, after)` at the last space, and `("", line)` when there is no
space. -/
def pyRPartitionSpace (line : String) : String × String :=
  match splitLastOn ' ' line.data with
  | some (a, b) => (String.mk a, String.mk b)
  | none => ("", line)

/-- Split a character list at every newline, keeping empty segments (the
recursion underlying `str.splitlines`). -/
def splitNl : List Char → List (List Char)
  | [] => [[]]
  | c :: rest =>
    if c = '\n' then [] :: splitNl rest
    else
      match splitNl rest with
      | [] => [[c]]
      | l :: ls => (c :: l) :: ls

/-- `text.splitlines()`: like `splitNl` but without the trailing empty segment
produced by a final newline (and `[]` for the empty string).  Python also
splits on `\r` and a few other terminators; the collapsed-stack format is
newline-delimited, so only `\n` is modelled. -/
def pySplitlines (cs : List Char) : List (List Char) :=
  let parts := splitNl cs
  if parts.getLast? = some [] then parts.dropLast else parts

/-- `text.splitlines()` on strings. -/
def pyLines (s : String) : List String := (pySplitlines s.data).map String.mk

/-- Digit-string value, or `none` if empty or not all digits. -/
def digitsToNat (cs : List Char) : Option ℕ :=
  if cs ≠ [] ∧ cs.all Char.isDigit then
    some (cs.foldl (fun a c => a * 10 + (c.toNat - 48)) 0)
  else none

/-- `int(s)`: strip whitespace, optional sign, digits; `none` models the
`ValueError` the source catches.  (Underscores between digits and non-ASCII
digits, which Python also accepts, are not modelled.) -/
def pyInt (s : String) : Option Int :=
  let cs := s.data.dropWhile isPySpace
  let cs := (cs.reverse.dropWhile isPySpace).reverse
  match cs with
  | '-' :: rest => (digitsToNat rest).map (fun n => -(n : Int))
  | '+' :: rest => (digitsToNat rest).map (fun n => (n : Int))
  | rest => (digitsToNat rest).map (fun n => (n : Int))

/-! ## `parse_one_collapsed` (merge.py lines 36-58) -/

/-- Root-frame prefixing: `f"{add_comm};{stack}"` when `add_comm` is given. -/
def parseLineKey (add_comm : Option String) (stack : String) : String :=
  match add_comm with
  | some c => c ++ ";" ++ stack
  | none => stack

/-- What one line of `parse_one_collapsed` does to the counter: `none` for
skipped lines (blank, `#`-comment, or `int(count)` failure — the `except`
branch), `some (key, n)` for an accumulation of `n` at `key`. -/
def lineAct (add_comm : Option String) (line : String) : Option (String × Int) :=
  if pyIsBlank line then none
  else if pyStartsHash line then none
  else
    let parts := pyRPartitionSpace line
    match pyInt parts.2 with
    | some n => some (parseLineKey add_comm parts.1, n)
    | none => none

/-- One loop iteration of `parse_one_collapsed`. -/
def parseStep (add_comm : Option String) (stks : StackToSampleCount)
    (line : String) : StackToSampleCount :=
  match lineAct add_comm line with
  | none => stks
  | some (k, n) => incr stks k n

/-- `parse_one_collapsed(collapsed, add_comm)` (merge.py lines 36-58). -/
def parse_one_collapsed (collapsed : String) (add_comm : Option String) :
    StackToSampleCount :=
  (pyLines collapsed).foldl (parseStep add_comm) []

/-! ## `parse_many_collapsed` (merge.py lines 68-89) -/

/-- The loop state of `parse_many_collapsed`: the per-pid results
(`defaultdict(Counter)`) and the accumulated bad lines. -/
structure ParseManyState where
  results : List (Int × StackToSampleCount)
  bad_lines : List String
deriving DecidableEq

/-- The `defaultdict` access `results[pid]`: materializes an empty counter for
a missing pid.  This happens *before* `int(count)` is evaluated, which is why
a line failing only on its count still leaves an empty entry behind. -/
def touchPid (results : List (Int × StackToSampleCount)) (pid : Int) :
    List (Int × StackToSampleCount) :=
  match alLookup results pid with
  | some _ => results
  | none => results ++ [(pid, [])]

/-- `results[pid][key] += n` for a pid already materialized. -/
def incrPid (results : List (Int × StackToSampleCount)) (pid : Int)
    (key : String) (n : Int) : List (Int × StackToSampleCount) :=
  results.map (fun e => if e.1 = pid then (e.1, incr e.2 key n) else e)

/-- One loop iteration of `parse_many_collapsed`.  Any `ValueError` (failed
two-element unpacking or failed `int(...)`) sends the line to `bad_lines`. -/
def parseManyLine (st : ParseManyState) (line : String) : ParseManyState :=
  match splitLastOn ' ' line.data with
  | none => { st with bad_lines := st.bad_lines ++ [line] }
  | some (stack0, count) =>
    match splitFirstOn ';' stack0 with
    | none => { st with bad_lines := st.bad_lines ++ [line] }
    | some (comm_pid_tid, stack) =>
      match splitLastOn '-' comm_pid_tid with
      | none => { st with bad_lines := st.bad_lines ++ [line] }
      | some (comm, pid_tid) =>
        match pyInt (String.mk (pid_tid.takeWhile (fun c => c ≠ '/'))) with
        | none => { st with bad_lines := st.bad_lines ++ [line] }
        | some pid =>
          let touched := touchPid st.results pid
          match pyInt (String.mk count) with
          | none =>
            { results := touched, bad_lines := st.bad_lines ++ [line] }
          | some n =>
            { results :=
                incrPid touched pid
                  (String.mk comm ++ ";" ++ String.mk stack) n,
              bad_lines := st.bad_lines }

/-- `parse_many_collapsed(text)` (merge.py lines 68-89); the returned state
also carries the bad lines the source only logs. -/
def parse_many_collapsed (text : String) : ParseManyState :=
  (pyLines text).foldl parseManyLine { results := [], bad_lines := [] }

/-! ## `scale_sample_counts` (merge.py lines 92-106) -/

/-- The fractional part `math.modf(x)[0]`: same sign as `x`. -/
def pyFrac (q : ℚ) : ℚ := if q < 0 then -(Int.fract (-q)) else Int.fract q

/-- The randomized rounding of one scaled count (merge.py line 102):
`math.ceil(new_count) if random.random() <= math.modf(new_count)[0] else
math.floor(new_count)`, with the draw passed explicitly. -/
def scaledVal (draw : ℚ) (newCount : ℚ) : Int :=
  if draw ≤ pyFrac newCount then ⌈newCount⌉ else ⌊newCount⌋

/-- The loop of `scale_sample_counts` for `ratio != 1`.  `draws i` models the
`random.random()` call made while scaling the `i`-th entry (`new_count` is
`count * ratio`), and entries whose scaled value is `0` are dropped. -/
def scaleGo (draws : ℕ → ℚ) (ratio : ℚ) : List (String × Int) → ℕ → StackToSampleCount
  | [], _ => []
  | (stack, count) :: rest, i =>
    if scaledVal (draws i) ((count : ℚ) * ratio) ≠ 0 then
      (stack, scaledVal (draws i) ((count : ℚ) * ratio)) ::
        scaleGo draws ratio rest (i + 1)
    else scaleGo draws ratio rest (i + 1)

/-- `scale_sample_counts(stacks, ratio)` (merge.py lines 92-106), with the
random draws passed explicitly. -/
def scale_sample_counts (stks : StackToSampleCount) (ratio : ℚ)
    (draws : ℕ → ℚ) : StackToSampleCount :=
  if ratio = 1 then stks else scaleGo draws ratio stks 0

/-- Modelled from the spec: the expected value of one randomized-rounding step
of `scale_sample_counts`.  The draw is uniform on `[0, 1)`, so the entry is
rounded up with probability `pyFrac newCount` and down otherwise; this
definition is that two-point expectation. -/
def expectedScaledValue (count : Int) (ratio : ℚ) : ℚ :=
  pyFrac ((count : ℚ) * ratio) * ⌈(count : ℚ) * ratio⌉ +
    (1 - pyFrac ((count : ℚ) * ratio)) * ⌊(count : ℚ) * ratio⌋

/-- Expectation of the total of the scaled mapping, by linearity over the
independent per-entry draws (dropping zero-valued entries does not change the
total). -/
def expectedScaledSum (stks : StackToSampleCount) (ratio : ℚ) : ℚ :=
  match stks with
  | [] => 0
  | p :: rest => expectedScaledValue p.2 ratio + expectedScaledSum rest ratio

/-! ## Data model (gprofiler_types / collaborators, as consumed by merge.py) -/

/-- Modelled from the spec: a structured application-metadata document
(`Optional[Dict]` in the source, compared by structural equality).  The spec
only requires a value type with decidable structural equality; a flat
key/value document suffices for everything merge.py does with it. -/
abbrev MetaDoc := List (String × String)

/-- Modelled from the spec: the run metadata document (`Metadata`), a
JSON-compatible key/value document; merge.py only ever reads
`metadata["profiling_mode"]` and serializes the rest verbatim. -/
abbrev Metadata := List (String × String)

/-- Modelled from the spec: the metrics snapshot (`Metrics.__dict__`), a flat
key/value document serialized into the header. -/
abbrev Metrics := List (String × String)

/-- `ProfileData` (gprofiler_types): the fields merge.py reads.  The `stks`
field is `stacks` in the source (`stacks` is unavailable as an identifier
here). -/
structure ProfileData where
  stks : StackToSampleCount
  appid : Option String
  app_metadata : Option MetaDoc
deriving DecidableEq

/-- `ProcessToProfileData`: pid → profile, a Python dict. -/
abbrev ProcessToProfileData := List (Int × ProfileData)

/-- `EnrichmentOptions` (gprofiler.metadata.enrichment): the fields merge.py
reads. -/
structure EnrichmentOptions where
  profile_api_version : String
  container_names : Bool
  application_identifiers : Bool
  application_metadata : Bool
deriving DecidableEq

/-- Modelled from the spec: the container-identity collaborator
(`ContainerNamesClient`), consumed as a capability: `get_container_name(pid)`
and the accumulated `container_names` list.  Its cache lifecycle
(`reset_cache`) is a side effect with no bearing on the claims and is not
modelled. -/
structure ContainerNamesClient where
  getContainerName : Int → String
  container_names : List String

/-- Modelled from the spec: `ProfilingErrorStack.is_error_stack`
(gprofiler_types, not under src/) recognizes the reserved error-marker stack
convention of runtime profilers.  Following the spec's example
(`{"ERROR;failed_to_attach": 1}`), we model it as: the mapping is nonempty
and every stack signature's root frame is the reserved marker `ERROR`. -/
def isErrorStack (m : StackToSampleCount) : Bool :=
  !m.isEmpty && m.all (fun p => p.1.data.takeWhile (fun c => c ≠ ';') = ['E', 'R', 'R', 'O', 'R'])

/-- Modelled from the spec: `ProfilingErrorStack.attach_error_to_stacks`
(gprofiler_types, not under src/): for every stack in the error mapping,
produce one output entry per stack in the reference mapping, concatenating the
error-marker stack with the reference stack, with the reference stack's
count. -/
def attachError (reference errorStacks : StackToSampleCount) : StackToSampleCount :=
  errorStacks.foldl
    (fun acc ep =>
      reference.foldl (fun acc2 rp => alSet acc2 (ep.1 ++ ";" ++ rp.1) rp.2) acc)
    []

/-! ## Enrichment (merge.py lines 109-209) -/

/-- `_get_container_name(pid, container_names_client, add_container_names)`
(merge.py lines 137-144). -/
def _get_container_name (pid : Int) (client : Option ContainerNamesClient)
    (add_container_names : Bool) : String :=
  match client with
  | some c => if add_container_names then c.getContainerName pid else ""
  | none => ""

/-- `PidStackEnrichment` (merge.py lines 147-151).  `applicationPart` and
`containerPart` are `application_prefix` and `container_prefix` in the
source. -/
structure PidStackEnrichment where
  appid : Option String
  applicationPart : String
  containerPart : String
deriving DecidableEq

/-- The application-metadata table update of `_enrich_pid_stacks`
(merge.py lines 173-175): append the document only when it is not already
present (structural equality). -/
def enrichTable (table : List (Option MetaDoc)) (doc : Option MetaDoc) :
    List (Option MetaDoc) :=
  if doc ∈ table then table else table ++ [doc]

/-- `_enrich_pid_stacks(pid, profile, enrichment_options,
container_names_client, application_metadata)` (merge.py lines 154-192),
returning the enrichment bundle together with the updated
application-metadata table (mutated in place in the source). -/
def _enrich_pid_stacks (pid : Int) (profile : ProfileData)
    (enrichment_options : EnrichmentOptions)
    (container_names_client : Option ContainerNamesClient)
    (application_metadata : List (Option MetaDoc)) :
    PidStackEnrichment × List (Option MetaDoc) :=
  let appid := profile.appid.map (fun a => "appid: " ++ a)
  let table := enrichTable application_metadata profile.app_metadata
  let idx := pyIndex table profile.app_metadata
  let applicationPart :=
    if enrichment_options.profile_api_version ≠ "v1" ∧
        enrichment_options.application_metadata = true then
      toString idx ++ ";"
    else ""
  let containerPart :=
    if enrichment_options.profile_api_version ≠ "v1" then
      _get_container_name pid container_names_client
          enrichment_options.container_names ++ ";"
    else ""
  ({ appid := appid, applicationPart := applicationPart,
     containerPart := containerPart }, table)

/-- `_enrich_and_finalize_stack(stack, count, enrichment_options, enrich_data)`
(merge.py lines 195-209). -/
def _enrich_and_finalize_stack (stack : String) (count : Int)
    (enrichment_options : EnrichmentOptions) (enrich_data : PidStackEnrichment) :
    String :=
  let spliced :=
    match enrichment_options.application_identifiers, enrich_data.appid with
    | true, some appid =>
      match splitFirstOn ';' stack.data with
      | some (first_frame, others) =>
        String.mk first_frame ++ ";" ++ appid ++ ";" ++ String.mk others
      | none => stack ++ ";" ++ appid
    | _, _ => stack
  enrich_data.applicationPart ++ enrich_data.containerPart ++ spliced ++ " " ++
    toString count

/-! ## Header line and `concatenate_profiles` (merge.py lines 109-134, 248-280) -/

/-- JSON string literal (escaping elided; no claim depends on it). -/
def jsonString (s : String) : String := "\"" ++ s ++ "\""

/-- JSON array of strings. -/
def jsonStringList (l : List String) : String :=
  "[" ++ String.intercalate ", " (l.map jsonString) ++ "]"

/-- JSON boolean. -/
def jsonBool (b : Bool) : String := if b then "true" else "false"

/-- JSON object with string values (the shape of the modelled `Metadata`,
`Metrics` and `MetaDoc` documents). -/
def jsonObj (kvs : List (String × String)) : String :=
  "\x7b" ++
    String.intercalate ", " (kvs.map (fun p => jsonString p.1 ++ ": " ++ jsonString p.2)) ++
    "\x7d"

/-- JSON value of one application-metadata table entry (`null` sentinel or a
document). -/
def jsonMetaDocEntry (d : Option MetaDoc) : String :=
  match d with
  | none => "null"
  | some doc => jsonObj doc

/-- The serialized header document of `_make_profile_metadata`
(merge.py lines 125-134), given the already-resolved container-name list and
flag and the profiling mode read out of the run metadata. -/
def profileMetadataJson (container_names : List String) (enabled : Bool)
    (metadata : Metadata) (metrics : Metrics)
    (application_metadata : List (Option MetaDoc))
    (application_metadata_enabled : Bool) (profiling_mode : String) : String :=
  "\x7b\"containers\": " ++ jsonStringList container_names ++
  ", \"container_names_enabled\": " ++ jsonBool enabled ++
  ", \"metadata\": " ++ jsonObj metadata ++
  ", \"metrics\": " ++ jsonObj metrics ++
  ", \"application_metadata\": " ++
    ("[" ++ String.intercalate ", " (application_metadata.map jsonMetaDocEntry) ++ "]") ++
  ", \"application_metadata_enabled\": " ++ jsonBool application_metadata_enabled ++
  ", \"profiling_mode\": " ++ jsonString profiling_mode ++ "\x7d"

/-- `_make_profile_metadata(...)` (merge.py lines 109-134).  Reading
`metadata["profiling_mode"]` raises `KeyError` when the key is absent, hence
the `Option`. -/
def _make_profile_metadata (container_names_client : Option ContainerNamesClient)
    (add_container_names : Bool) (metadata : Metadata) (metrics : Metrics)
    (application_metadata : List (Option MetaDoc))
    (application_metadata_enabled : Bool) : Option String :=
  let resolved :=
    match container_names_client with
    | some c => if add_container_names then (c.container_names, true) else ([], false)
    | none => ([], false)
  (alLookup metadata "profiling_mode").map (fun mode =>
    "# " ++ profileMetadataJson resolved.1 resolved.2 metadata metrics
        application_metadata application_metadata_enabled mode)

/-- The finalized lines contributed by one process's profile
(the inner loop of `concatenate_profiles`, merge.py lines 266-267). -/
def pidStackLines (enrichment_options : EnrichmentOptions)
    (enrich_data : PidStackEnrichment) (profile : ProfileData) : List String :=
  profile.stks.map (fun p =>
    _enrich_and_finalize_stack p.1 p.2 enrichment_options enrich_data)

/-- One iteration of the outer loop of `concatenate_profiles`
(merge.py lines 264-267), threading the application-metadata table. -/
def concatStep (enrichment_options : EnrichmentOptions)
    (container_names_client : Option ContainerNamesClient)
    (st : List (Option MetaDoc) × List String) (entry : Int × ProfileData) :
    List (Option MetaDoc) × List String :=
  let r := _enrich_pid_stacks entry.1 entry.2 enrichment_options
      container_names_client st.1
  (r.2, st.2 ++ pidStackLines enrichment_options r.1 entry.2)

/-- The full loop of `concatenate_profiles` from the initial sentinel table
`[None]` (merge.py lines 259-267). -/
def concatFold (process_profiles : ProcessToProfileData)
    (enrichment_options : EnrichmentOptions)
    (container_names_client : Option ContainerNamesClient) :
    List (Option MetaDoc) × List String :=
  process_profiles.foldl (concatStep enrichment_options container_names_client)
    ([none], [])

/-- The line list of `concatenate_profiles` (header first, then every enriched
stack line), or `none` when the header raises. -/
def concatenateLines (process_profiles : ProcessToProfileData)
    (container_names_client : Option ContainerNamesClient)
    (enrichment_options : EnrichmentOptions) (metadata : Metadata)
    (metrics : Metrics) : Option (List String) :=
  let st := concatFold process_profiles enrichment_options container_names_client
  (_make_profile_metadata container_names_client
      enrichment_options.container_names metadata metrics st.1
      enrichment_options.application_metadata).map (fun h => h :: st.2)

/-- `concatenate_profiles(process_profiles, container_names_client,
enrichment_options, metadata, metrics)` (merge.py lines 248-280). -/
def concatenate_profiles (process_profiles : ProcessToProfileData)
    (container_names_client : Option ContainerNamesClient)
    (enrichment_options : EnrichmentOptions) (metadata : Metadata)
    (metrics : Metrics) : Option String :=
  (concatenateLines process_profiles container_names_client enrichment_options
      metadata metrics).map (fun ls => String.intercalate "\n" ls)

/-! ## `merge_profiles` (merge.py lines 283-320) -/

/-- The per-process decision of `merge_profiles` (merge.py lines 297-315):
error-attach when perf has this pid with a positive total and the runtime
profile is an error stack, else scale by `perf_total / profile_total`.
`draws` models the `random.random()` stream a scaling step consumes. -/
def mergeStepStacks (draws : ℕ → ℚ) (process_perf : Option ProfileData)
    (profile : ProfileData) : StackToSampleCount :=
  let profile_samples_count : Int := sumCounts profile.stks
  match process_perf with
  | some pp =>
    let perf_samples_count : Int := sumCounts pp.stks
    if 0 < perf_samples_count ∧ isErrorStack profile.stks = true then
      attachError pp.stks profile.stks
    else
      scale_sample_counts profile.stks
        ((perf_samples_count : ℚ) / (profile_samples_count : ℚ)) draws
  | none =>
    scale_sample_counts profile.stks
      ((0 : ℚ) / (profile_samples_count : ℚ)) draws

/-- The merge loop of `merge_profiles` (merge.py lines 292-318) over the
candidate (runtime-profiler) entries, mutating the perf mapping.  `i` numbers
the candidate entries so each gets its own independent draw stream (the draws
are i.i.d., so this indexing is equivalent to threading Python's single global
stream).  `none` models the `assert profile_samples_count > 0` failure. -/
def mergeGo (draws : ℕ → ℕ → ℚ) (i : ℕ) (acc : ProcessToProfileData) :
    List (Int × ProfileData) → Option ProcessToProfileData
  | [] => some acc
  | (pid, profile) :: rest =>
    if profile.stks = [] then mergeGo draws (i + 1) acc rest
    else if sumCounts profile.stks ≤ 0 then none
    else
      mergeGo draws (i + 1)
        (alSet acc pid
          { profile with
            stks := mergeStepStacks (draws i) (alLookup acc pid) profile })
        rest

/-- The profile-merging phase of `merge_profiles` (before concatenation). -/
def mergeProcess (draws : ℕ → ℕ → ℚ) (perf_pid_to_profiles : ProcessToProfileData)
    (process_profiles : ProcessToProfileData) : Option ProcessToProfileData :=
  mergeGo draws 0 perf_pid_to_profiles process_profiles

/-- `merge_profiles(perf_pid_to_profiles, process_profiles,
container_names_client, enrichment_options, metadata, metrics)`
(merge.py lines 283-320). -/
def merge_profiles (draws : ℕ → ℕ → ℚ)
    (perf_pid_to_profiles : ProcessToProfileData)
    (process_profiles : ProcessToProfileData)
    (container_names_client : Option ContainerNamesClient)
    (enrichment_options : EnrichmentOptions) (metadata : Metadata)
    (metrics : Metrics) : Option String :=
  (mergeProcess draws perf_pid_to_profiles process_profiles).bind (fun m =>
    concatenate_profiles m container_names_client enrichment_options metadata
      metrics)

/-! ## Basic lemmas about the dict operations -/

theorem lookupCount_incr (m : StackToSampleCount) (key k : String) (n : Int) :
    lookupCount (incr m key n) k =
      lookupCount m k + (if key = k then n else 0) := by
  induction m with
  | nil =>
    by_cases h : key = k <;> simp [incr, lookupCount, h]
  | cons p rest ih =>
    obtain ⟨k', v⟩ := p
    by_cases h1 : k' = key
    · subst h1
      by_cases h2 : k' = k
      · subst h2
        simp [incr, lookupCount]
      · simp [incr, lookupCount, h2]
    · by_cases h2 : k' = k
      · subst h2
        have hne : ¬ key = k' := fun hh => h1 hh.symm
        simp [incr, lookupCount, h1, hne]
      · simp [incr, lookupCount, h1, h2, ih]

theorem alLookup_alSet_self {κ α : Type} [DecidableEq κ]
    (m : List (κ × α)) (k : κ) (v : α) :
    alLookup (alSet m k v) k = some v := by
  induction m with
  | nil => simp [alSet, alLookup]
  | cons p rest ih =>
    by_cases h : p.1 = k
    · simp [alSet, alLookup, h]
    · simp [alSet, alLookup, h, ih]

theorem alLookup_alSet_ne {κ α : Type} [DecidableEq κ]
    (m : List (κ × α)) (k' k : κ) (v : α) (h : k' ≠ k) :
    alLookup (alSet m k' v) k = alLookup m k := by
  induction m with
  | nil => simp [alSet, alLookup, h]
  | cons p rest ih =>
    obtain ⟨k0, w⟩ := p
    by_cases h1 : k0 = k'
    · subst h1
      simp [alSet, alLookup, h]
    · by_cases h2 : k0 = k
      · subst h2
        have hne : ¬ k0 = k' := fun hh => h hh.symm
        simp [alSet, alLookup, h1, hne]
      · simp [alSet, alLookup, h1, h2, ih]

/-! ## Line-splitting lemmas -/

theorem splitNl_ne_nil : ∀ cs : List Char, splitNl cs ≠ [] := by
  intro cs
  induction cs with
  | nil => simp [splitNl]
  | cons c rest ih =>
    by_cases h : c = '\n'
    · simp [splitNl, h]
    · simp only [splitNl, if_neg h]
      cases hr : splitNl rest with
      | nil => simp
      | cons l ls => simp

theorem splitNl_append_newline :
    ∀ zs ys : List Char, splitNl (zs ++ '\n' :: ys) = splitNl zs ++ splitNl ys := by
  intro zs ys
  induction zs with
  | nil => simp [splitNl]
  | cons c zs ih =>
    by_cases h : c = '\n'
    · simp [splitNl, h, ih]
    · rw [List.cons_append]
      simp only [splitNl, if_neg h]
      rw [ih]
      cases hz : splitNl zs with
      | nil => exact absurd hz (splitNl_ne_nil zs)
      | cons l ls => simp [hz]

theorem splitNl_concat_newline (zs : List Char) :
    splitNl (zs ++ ['\n']) = splitNl zs ++ [[]] := by
  have := splitNl_append_newline zs []
  simpa [splitNl] using this

theorem pySplitlines_append_newline (zs ys : List Char) :
    pySplitlines (zs ++ '\n' :: ys) = splitNl zs ++ pySplitlines ys := by
  unfold pySplitlines
  rw [splitNl_append_newline]
  by_cases h : (splitNl ys).getLast? = some []
  · rw [if_pos, if_pos h]
    · exact List.dropLast_append_of_ne_nil _ (splitNl_ne_nil ys)
    · rw [List.getLast?_append_of_ne_nil _ (splitNl_ne_nil ys)]
      exact h
  · rw [if_neg, if_neg h]
    rw [List.getLast?_append_of_ne_nil _ (splitNl_ne_nil ys)]
    exact h

theorem pySplitlines_concat_newline (zs : List Char) :
    pySplitlines (zs ++ ['\n']) = splitNl zs := by
  unfold pySplitlines
  rw [splitNl_concat_newline]
  rw [if_pos (List.getLast?_concat _)]
  exact List.dropLast_concat

theorem String_data_append (a b : String) : (a ++ b).data = a.data ++ b.data := by
  cases a
  cases b
  rfl

/-! ## Additivity of the `parse_one_collapsed` fold -/

theorem lookupCount_parseStep (add_comm : Option String)
    (m : StackToSampleCount) (line : String) (k : String) :
    lookupCount (parseStep add_comm m line) k =
      lookupCount m k + lookupCount (parseStep add_comm [] line) k := by
  cases hact : lineAct add_comm line with
  | none => simp [parseStep, hact, lookupCount]
  | some p =>
    obtain ⟨key, n⟩ := p
    simp [parseStep, hact, lookupCount_incr, lookupCount]

theorem lookupCount_foldl_parseStep (add_comm : Option String) :
    ∀ (ls : List String) (m : StackToSampleCount) (k : String),
      lookupCount (ls.foldl (parseStep add_comm) m) k =
        lookupCount m k + lookupCount (ls.foldl (parseStep add_comm) []) k := by
  intro ls
  induction ls with
  | nil => intro m k; simp [lookupCount]
  | cons l ls ih =>
    intro m k
    simp only [List.foldl_cons]
    rw [ih (parseStep add_comm m l) k, ih (parseStep add_comm [] l) k,
      lookupCount_parseStep]
    ring

/-! ## Scaling lemmas -/

theorem pyFrac_of_nonneg (x : ℚ) (hx : 0 ≤ x) : pyFrac x = Int.fract x := by
  unfold pyFrac
  rw [if_neg (not_lt.mpr hx)]

theorem scaledVal_eq_ceil_or_floor (d x : ℚ) :
    scaledVal d x = ⌈x⌉ ∨ scaledVal d x = ⌊x⌋ := by
  unfold scaledVal
  split
  · exact Or.inl rfl
  · exact Or.inr rfl

theorem abs_scaledVal_sub_le (d x : ℚ) : |(scaledVal d x : ℚ) - x| ≤ 1 := by
  rcases scaledVal_eq_ceil_or_floor d x with h | h <;> rw [h] <;> rw [abs_le] <;>
    constructor
  · linarith [Int.le_ceil x]
  · have h1 : (⌈x⌉ : ℚ) ≤ ⌊x⌋ + 1 := by exact_mod_cast Int.ceil_le_floor_add_one x
    linarith [Int.floor_le x]
  · linarith [Int.lt_floor_add_one x]
  · linarith [Int.floor_le x]

theorem scaledVal_nonneg (d x : ℚ) (hx : 0 ≤ x) : 0 ≤ scaledVal d x := by
  rcases scaledVal_eq_ceil_or_floor d x with h | h <;> rw [h]
  · exact Int.ceil_nonneg hx
  · exact Int.floor_nonneg.mpr hx

theorem scaledVal_zero (d : ℚ) : scaledVal d 0 = 0 := by
  unfold scaledVal
  split <;> simp

theorem sumCounts_scaleGo_cons (draws : ℕ → ℚ) (ratio : ℚ) (s : String)
    (c : Int) (rest : List (String × Int)) (i : ℕ) :
    sumCounts (scaleGo draws ratio ((s, c) :: rest) i) =
      scaledVal (draws i) ((c : ℚ) * ratio) +
        sumCounts (scaleGo draws ratio rest (i + 1)) := by
  simp only [scaleGo]
  split
  · simp [sumCounts]
  · rename_i h
    rw [not_not.mp h, zero_add]

theorem scaleGo_sum_bound (draws : ℕ → ℚ) (ratio : ℚ) :
    ∀ (l : List (String × Int)) (i : ℕ),
      |(sumCounts (scaleGo draws ratio l i) : ℚ) - ratio * (sumCounts l : ℚ)| ≤
        l.length := by
  intro l
  induction l with
  | nil => intro i; simp [scaleGo, sumCounts]
  | cons p rest ih =>
    intro i
    obtain ⟨s, c⟩ := p
    rw [sumCounts_scaleGo_cons]
    have hstep := abs_scaledVal_sub_le (draws i) ((c : ℚ) * ratio)
    have hrest := ih (i + 1)
    have hsum : sumCounts ((s, c) :: rest) = c + sumCounts rest := rfl
    rw [hsum]
    have hlen : (((s, c) :: rest).length : ℚ) = rest.length + 1 := by
      simp
    rw [hlen]
    have hcast :
        ((scaledVal (draws i) ((c : ℚ) * ratio) +
            sumCounts (scaleGo draws ratio rest (i + 1)) : Int) : ℚ) =
          (scaledVal (draws i) ((c : ℚ) * ratio) : ℚ) +
            (sumCounts (scaleGo draws ratio rest (i + 1)) : ℚ) := by
      push_cast
      ring
    rw [hcast]
    have hcast2 : ((c + sumCounts rest : Int) : ℚ) = (c : ℚ) + (sumCounts rest : ℚ) := by
      push_cast
      ring
    rw [hcast2]
    calc |(scaledVal (draws i) ((c : ℚ) * ratio) : ℚ) +
            (sumCounts (scaleGo draws ratio rest (i + 1)) : ℚ) -
            ratio * ((c : ℚ) + (sumCounts rest : ℚ))|
        = |((scaledVal (draws i) ((c : ℚ) * ratio) : ℚ) - (c : ℚ) * ratio) +
            ((sumCounts (scaleGo draws ratio rest (i + 1)) : ℚ) -
              ratio * (sumCounts rest : ℚ))| := by ring_nf
      _ ≤ |( (scaledVal (draws i) ((c : ℚ) * ratio) : ℚ) - (c : ℚ) * ratio)| +
            |(sumCounts (scaleGo draws ratio rest (i + 1)) : ℚ) -
              ratio * (sumCounts rest : ℚ)| := abs_add _ _
      _ ≤ 1 + rest.length := add_le_add hstep hrest
      _ = rest.length + 1 := by ring

theorem scaleGo_ratio_zero (draws : ℕ → ℚ) :
    ∀ (l : List (String × Int)) (i : ℕ), scaleGo draws 0 l i = [] := by
  intro l
  induction l with
  | nil => intro i; rfl
  | cons p rest ih =>
    intro i
    obtain ⟨s, c⟩ := p
    simp only [scaleGo, mul_zero, scaledVal_zero, ne_eq, not_true_eq_false,
      if_false]
    exact ih (i + 1)

theorem scale_sample_counts_ratio_zero (m : StackToSampleCount) (draws : ℕ → ℚ) :
    scale_sample_counts m 0 draws = [] := by
  unfold scale_sample_counts
  rw [if_neg (by norm_num)]
  exact scaleGo_ratio_zero draws m 0

theorem scaleGo_mem_pos (draws : ℕ → ℚ) (ratio : ℚ) (hr : 0 ≤ ratio) :
    ∀ (l : List (String × Int)) (i : ℕ), (∀ p ∈ l, 0 ≤ p.2) →
      ∀ q ∈ scaleGo draws ratio l i, 0 < q.2 := by
  intro l
  induction l with
  | nil => intro i _ q hq; simp [scaleGo] at hq
  | cons p rest ih =>
    intro i hc q hq
    obtain ⟨s, c⟩ := p
    have hcpos : (0 : ℚ) ≤ (c : ℚ) * ratio := by
      have : (0 : Int) ≤ c := hc (s, c) (List.mem_cons_self _ _)
      have hcq : (0 : ℚ) ≤ (c : ℚ) := by exact_mod_cast this
      exact mul_nonneg hcq hr
    have hrest : ∀ p ∈ rest, 0 ≤ p.2 := fun p hp => hc p (List.mem_cons_of_mem _ hp)
    simp only [scaleGo] at hq
    split at hq
    · rename_i hne
      rcases List.mem_cons.mp hq with h | h
      · rw [h]
        have h0 : 0 ≤ scaledVal (draws i) ((c : ℚ) * ratio) :=
          scaledVal_nonneg _ _ hcpos
        exact lt_of_le_of_ne h0 (fun hh => hne hh.symm)
      · exact ih (i + 1) hrest q h
    · exact ih (i + 1) hrest q hq

theorem expectedScaledValue_eq (c : Int) (ratio : ℚ) (hc : 0 ≤ c)
    (hr : 0 ≤ ratio) : expectedScaledValue c ratio = (c : ℚ) * ratio := by
  have hx : (0 : ℚ) ≤ (c : ℚ) * ratio := by
    have hcq : (0 : ℚ) ≤ (c : ℚ) := by exact_mod_cast hc
    exact mul_nonneg hcq hr
  unfold expectedScaledValue
  rw [pyFrac_of_nonneg _ hx]
  by_cases h : Int.fract ((c : ℚ) * ratio) = 0
  · have hfl : ((⌊(c : ℚ) * ratio⌋ : Int) : ℚ) = (c : ℚ) * ratio := by
      have := Int.floor_add_fract ((c : ℚ) * ratio)
      rw [h, add_zero] at this
      exact this
    rw [h, hfl]
    ring
  · have hlt : ((⌊(c : ℚ) * ratio⌋ : Int) : ℚ) < (c : ℚ) * ratio := by
      rcases lt_or_eq_of_le (Int.floor_le ((c : ℚ) * ratio)) with hlt | heq
      · exact hlt
      · exact absurd (by rw [Int.fract, heq]; exact sub_self _) h
    have hceil : (⌈(c : ℚ) * ratio⌉ : Int) = ⌊(c : ℚ) * ratio⌋ + 1 := by
      apply le_antisymm (Int.ceil_le_floor_add_one _)
      have h2 : ((⌊(c : ℚ) * ratio⌋ : Int) : ℚ) < (⌈(c : ℚ) * ratio⌉ : Int) :=
        lt_of_lt_of_le hlt (Int.le_ceil _)
      exact Int.add_one_le_iff.mpr (by exact_mod_cast h2)
    have hfr := Int.floor_add_fract ((c : ℚ) * ratio)
    rw [hceil, Int.fract]
    push_cast
    ring

theorem expectedScaledSum_eq (stks : StackToSampleCount) (ratio : ℚ)
    (hc : ∀ p ∈ stks, 0 ≤ p.2) (hr : 0 ≤ ratio) :
    expectedScaledSum stks ratio = ratio * (sumCounts stks : ℚ) := by
  induction stks with
  | nil => simp [expectedScaledSum, sumCounts]
  | cons p rest ih =>
    have hp : 0 ≤ p.2 := hc p (List.mem_cons_self _ _)
    have hrest : ∀ q ∈ rest, 0 ≤ q.2 := fun q hq => hc q (List.mem_cons_of_mem _ hq)
    have hsum : sumCounts (p :: rest) = p.2 + sumCounts rest := rfl
    unfold expectedScaledSum
    rw [expectedScaledValue_eq p.2 ratio hp hr, ih hrest, hsum]
    push_cast
    ring

/-! ## Merge-loop lemmas -/

theorem mergeStepStacks_attach (d : ℕ → ℚ) (pp profile : ProfileData)
    (hpp : 0 < sumCounts pp.stks) (herr : isErrorStack profile.stks = true) :
    mergeStepStacks d (some pp) profile = attachError pp.stks profile.stks := by
  show (if 0 < sumCounts pp.stks ∧ isErrorStack profile.stks = true then
      attachError pp.stks profile.stks
    else
      scale_sample_counts profile.stks
        ((sumCounts pp.stks : ℚ) / (sumCounts profile.stks : ℚ)) d) =
    attachError pp.stks profile.stks
  rw [if_pos ⟨hpp, herr⟩]

theorem mergeStepStacks_none (d : ℕ → ℚ) (profile : ProfileData) :
    mergeStepStacks d none profile = [] := by
  show scale_sample_counts profile.stks
      ((0 : ℚ) / (sumCounts profile.stks : ℚ)) d = []
  rw [zero_div]
  exact scale_sample_counts_ratio_zero _ _

theorem mergeGo_lookup_frozen (draws : ℕ → ℕ → ℚ) (pid : Int) :
    ∀ (cand : List (Int × ProfileData)) (i : ℕ) (acc M : ProcessToProfileData),
      pid ∉ cand.map Prod.fst → mergeGo draws i acc cand = some M →
      alLookup M pid = alLookup acc pid := by
  intro cand
  induction cand with
  | nil =>
    intro i acc M _ hM
    simp only [mergeGo] at hM
    rw [← Option.some.inj hM]
  | cons e rest ih =>
    intro i acc M hpid hM
    obtain ⟨p0, prof0⟩ := e
    have hp0 : p0 ≠ pid := by
      intro hh
      exact hpid (by simp [hh])
    have hrest : pid ∉ rest.map Prod.fst := by
      intro hh
      exact hpid (by simp [hh])
    simp only [mergeGo] at hM
    split at hM
    · exact ih (i + 1) acc M hrest hM
    · split at hM
      · exact absurd hM (by simp)
      · rw [ih (i + 1) _ M hrest hM]
        exact alLookup_alSet_ne _ _ _ _ hp0

theorem mergeGo_process (draws : ℕ → ℕ → ℚ) (pid : Int) (prof : ProfileData) :
    ∀ (cand : List (Int × ProfileData)) (i : ℕ) (acc M : ProcessToProfileData),
      (cand.map Prod.fst).Nodup → alLookup cand pid = some prof →
      prof.stks ≠ [] → mergeGo draws i acc cand = some M →
      ∃ j, alLookup M pid =
        some { prof with stks := mergeStepStacks (draws j) (alLookup acc pid) prof } := by
  intro cand
  induction cand with
  | nil =>
    intro i acc M _ hc
    simp [alLookup] at hc
  | cons e rest ih =>
    intro i acc M hnodup hc hne hM
    obtain ⟨p0, prof0⟩ := e
    by_cases hp : p0 = pid
    · subst hp
      have hprof : prof0 = prof := by
        simpa [alLookup] using hc
      subst hprof
      have hrest : p0 ∉ rest.map Prod.fst := by
        have := hnodup
        simp only [List.map_cons, List.nodup_cons] at this
        exact this.1
      simp only [mergeGo] at hM
      rw [if_neg hne] at hM
      split at hM
      · exact absurd hM (by simp)
      · refine ⟨i, ?_⟩
        rw [mergeGo_lookup_frozen draws p0 rest (i + 1) _ M hrest hM]
        exact alLookup_alSet_self _ _ _
    · have hc' : alLookup rest pid = some prof := by
        simpa [alLookup, hp] using hc
      have hnodup' : (rest.map Prod.fst).Nodup := by
        simp only [List.map_cons, List.nodup_cons] at hnodup
        exact hnodup.2
      simp only [mergeGo] at hM
      split at hM
      · exact ih (i + 1) acc M hnodup' hc' hne hM
      · split at hM
        · exact absurd hM (by simp)
        · obtain ⟨j, hj⟩ := ih (i + 1) _ M hnodup' hc' hne hM
          refine ⟨j, ?_⟩
          rw [hj, alLookup_alSet_ne _ _ _ _ hp]

/-! ## Application-metadata table lemmas -/

theorem enrichTable_head? (t : List (Option MetaDoc)) (d : Option MetaDoc)
    (h : t.head? = some none) : (enrichTable t d).head? = some none := by
  unfold enrichTable
  split
  · exact h
  · cases t with
    | nil => simp at h
    | cons x xs => simpa using h

theorem enrichTable_nodup (t : List (Option MetaDoc)) (d : Option MetaDoc)
    (h : t.Nodup) : (enrichTable t d).Nodup := by
  unfold enrichTable
  split
  · exact h
  · rename_i hd
    rw [List.nodup_append]
    exact ⟨h, List.nodup_singleton d, by simpa using hd⟩

theorem concatFold_table_inv (enrichment_options : EnrichmentOptions)
    (container_names_client : Option ContainerNamesClient) :
    ∀ (ps : List (Int × ProfileData)) (t : List (Option MetaDoc))
      (ls : List String), t.head? = some none → t.Nodup →
      ((ps.foldl (concatStep enrichment_options container_names_client)
          (t, ls)).1.head? = some none ∧
        (ps.foldl (concatStep enrichment_options container_names_client)
          (t, ls)).1.Nodup) := by
  intro ps
  induction ps with
  | nil => intro t ls h1 h2; exact ⟨h1, h2⟩
  | cons e rest ih =>
    intro t ls h1 h2
    simp only [List.foldl_cons]
    exact ih _ _ (enrichTable_head? t _ h1) (enrichTable_nodup t _ h2)

/-! ## Claim C5 -/

/-- Claim C5: `parse_one_collapsed(text, root)` skips blank and `#`-prefixed
lines; splits every other line at its last space into a stack signature and a
count and parses the count as an integer; when a root frame is given it is
prepended as `"root;"` before accumulation; a recurring (possibly prefixed)
signature accumulates (sums) rather than overwrites; and a line whose count
fails to parse is skipped without aborting the pass.  (A line with no space at
all degenerates to an empty signature with the whole line as the count, per
`rpartition`.) -/
theorem c5_parse_one_collapsed (add_comm : Option String) :
    (∀ (st : StackToSampleCount) (line : String),
        pyIsBlank line = true → parseStep add_comm st line = st) ∧
    (∀ (st : StackToSampleCount) (line : String),
        pyStartsHash line = true → parseStep add_comm st line = st) ∧
    (∀ (st : StackToSampleCount) (line : String) (stack cnt : List Char)
        (n : Int),
        pyIsBlank line = false → pyStartsHash line = false →
        splitLastOn ' ' line.data = some (stack, cnt) →
        pyInt (String.mk cnt) = some n →
        parseStep add_comm st line =
          incr st (parseLineKey add_comm (String.mk stack)) n) ∧
    (∀ (root stack : String),
        parseLineKey (some root) stack = root ++ ";" ++ stack) ∧
    (∀ (st : StackToSampleCount) (k : String) (n : Int),
        lookupCount (incr st k n) k = lookupCount st k + n) ∧
    (∀ (st : StackToSampleCount) (line : String) (stack cnt : List Char),
        splitLastOn ' ' line.data = some (stack, cnt) →
        pyInt (String.mk cnt) = none → parseStep add_comm st line = st) ∧
    (∀ text : String, parse_one_collapsed text add_comm =
        (pyLines text).foldl (parseStep add_comm) []) := by
  refine ⟨?_, ?_, ?_, ?_, ?_, ?_, ?_⟩
  · intro st line h
    simp [parseStep, lineAct, h]
  · intro st line h
    by_cases hb : pyIsBlank line <;> simp [parseStep, lineAct, h, hb]
  · intro st line stack cnt n hb hh hsplit hint
    simp [parseStep, lineAct, hb, hh, pyRPartitionSpace, hsplit, hint]
  · intro root stack
    rfl
  · intro st k n
    rw [lookupCount_incr]
    simp
  · intro st line stack cnt hsplit hint
    by_cases hb : pyIsBlank line
    · simp [parseStep, lineAct, hb]
    · by_cases hh : pyStartsHash line <;>
        simp [parseStep, lineAct, hb, hh, pyRPartitionSpace, hsplit, hint]
  · intro text
    rfl

/-- Witness for C5: each component at a concrete input. -/
theorem c5_parse_one_collapsed_witness :
    parseStep (some "root") [] "  " = [] ∧
    parseStep (some "root") [] "# comment" = [] ∧
    parseStep none [] "a;b 3" =
      incr [] (parseLineKey none (String.mk ['a', ';', 'b'])) 3 ∧
    parseLineKey (some "root") "a;b" = "root" ++ ";" ++ "a;b" ∧
    lookupCount (incr [("a;b", 3)] "a;b" 4) "a;b" =
      lookupCount [("a;b", 3)] "a;b" + 4 ∧
    parseStep none [] "a;b 3x" = [] ∧
    parse_one_collapsed "a;b 3\na;b 4" none =
      (pyLines "a;b 3\na;b 4").foldl (parseStep none) [] :=
  ⟨(c5_parse_one_collapsed (some "root")).1 [] "  " (by decide),
   (c5_parse_one_collapsed (some "root")).2.1 [] "# comment" (by decide),
   (c5_parse_one_collapsed none).2.2.1 [] "a;b 3" ['a', ';', 'b'] ['3'] 3
     (by decide) (by decide) (by decide) (by decide),
   (c5_parse_one_collapsed none).2.2.2.1 "root" "a;b",
   (c5_parse_one_collapsed none).2.2.2.2.1 [("a;b", 3)] "a;b" 4,
   (c5_parse_one_collapsed none).2.2.2.2.2.1 [] "a;b 3x" ['a', ';', 'b']
     ['3', 'x'] (by decide) (by decide),
   (c5_parse_one_collapsed none).2.2.2.2.2.2 "a;b 3\na;b 4"⟩

/-! ## Claim C6 -/

/-- Claim C6 counterexample: concatenating two collapsed texts where the first
does not end in a newline glues the last line of the first to the first line
of the second (`"a 1" ++ "b 1"` parses as the single line `"a 1b 1"`), so the
per-signature counts of the concatenation are not the sums. -/
theorem c6_counterexample :
    lookupCount (parse_one_collapsed ("a 1" ++ "b 1") none) "a" ≠
      lookupCount (parse_one_collapsed "a 1" none) "a" +
        lookupCount (parse_one_collapsed "b 1" none) "a" := by
  decide

/-- Claim C6 (amended): when the first text is empty or ends with a newline
(so concatenation preserves line boundaries), parsing the concatenation of two
single-process collapsed texts yields, for every stack signature, the sum of
the counts obtained by parsing each text independently. -/
theorem c6_amended (t1 t2 : String) (add_comm : Option String) (k : String)
    (h : t1.data = [] ∨ ∃ zs, t1.data = zs ++ ['\n']) :
    lookupCount (parse_one_collapsed (t1 ++ t2) add_comm) k =
      lookupCount (parse_one_collapsed t1 add_comm) k +
        lookupCount (parse_one_collapsed t2 add_comm) k := by
  rcases h with h | ⟨zs, hzs⟩
  · have hd : (t1 ++ t2).data = t2.data := by
      rw [String_data_append, h]
      simp
    have h1 : parse_one_collapsed (t1 ++ t2) add_comm =
        parse_one_collapsed t2 add_comm := by
      unfold parse_one_collapsed pyLines
      rw [hd]
    have h2 : parse_one_collapsed t1 add_comm = [] := by
      unfold parse_one_collapsed pyLines
      rw [h]
      rfl
    rw [h1, h2]
    simp [lookupCount]
  · have hd : (t1 ++ t2).data = zs ++ '\n' :: t2.data := by
      rw [String_data_append, hzs]
      simp
    have hl : pyLines (t1 ++ t2) = (splitNl zs).map String.mk ++ pyLines t2 := by
      unfold pyLines
      rw [hd, pySplitlines_append_newline, List.map_append]
    have hl1 : pyLines t1 = (splitNl zs).map String.mk := by
      unfold pyLines
      rw [hzs, pySplitlines_concat_newline]
    unfold parse_one_collapsed
    rw [hl, hl1, List.foldl_append]
    rw [lookupCount_foldl_parseStep]

/-- Witness for the amended C6 at a concrete pair of texts. -/
theorem c6_amended_witness :
    (("a 1\n" : String).data = [] ∨
      ∃ zs, ("a 1\n" : String).data = zs ++ ['\n']) ∧
    lookupCount (parse_one_collapsed ("a 1\n" ++ "a 2") none) "a" =
      lookupCount (parse_one_collapsed "a 1\n" none) "a" +
        lookupCount (parse_one_collapsed "a 2" none) "a" :=
  ⟨Or.inr ⟨['a', ' ', '1'], by decide⟩,
   c6_amended "a 1\n" "a 2" none "a" (Or.inr ⟨['a', ' ', '1'], by decide⟩)⟩

/-! ## Claim C9 -/

/-- Claim C9: in `parse_many_collapsed` a malformed line is never fatal, but
the error path is not state-preserving: for a line whose `<comm>-<pid>/<tid>`
identity parses to a valid pid while the trailing count token is invalid, the
line is recorded as a bad line and yet the `defaultdict` access performed
before `int(count)` leaves an entry for that pid with an empty counter. -/
theorem c9_parse_many_bad_count :
    (parse_many_collapsed "java-123/456;a;b 1x").results = [(123, [])] ∧
    (parse_many_collapsed "java-123/456;a;b 1x").bad_lines =
      ["java-123/456;a;b 1x"] := by
  decide

/-! ## Claim C3 -/

/-- Claim C3 counterexample: at `ratio = 1` the identity fast path returns the
input mapping unchanged, so a zero-valued input entry (legal: counts are
non-negative, and the repository's own parsers produce them from `"stack 0"`
lines) survives in the result, contradicting "every entry ... has a strictly
positive value". -/
theorem c3_counterexample :
    scale_sample_counts [("a", 0)] 1 (fun _ => 0) = [("a", 0)] ∧
    ¬ ∀ q ∈ scale_sample_counts [("a", 0)] 1 (fun _ => 0), 0 < q.2 := by
  have h : scale_sample_counts [("a", 0)] 1 (fun _ => 0) = [("a", 0)] := by
    simp [scale_sample_counts]
  refine ⟨h, ?_⟩
  intro hall
  have := hall ("a", 0) (by rw [h]; exact List.mem_singleton_self _)
  simp at this

/-- Claim C3 (amended): for a mapping with non-negative counts and a
non-negative ratio, every entry of `scale_sample_counts(mapping, ratio)` is
strictly positive whenever `ratio ≠ 1` (zero-rounded entries are omitted and
no negative value appears); for `ratio = 1` the fast path returns the input
unchanged, so zero-valued input entries survive there. -/
theorem c3_amended (stks : StackToSampleCount) (ratio : ℚ) (draws : ℕ → ℚ)
    (hc : ∀ p ∈ stks, 0 ≤ p.2) (hr : 0 ≤ ratio) :
    (ratio ≠ 1 → ∀ q ∈ scale_sample_counts stks ratio draws, 0 < q.2) ∧
    (ratio = 1 → scale_sample_counts stks ratio draws = stks) := by
  constructor
  · intro hne q hq
    unfold scale_sample_counts at hq
    rw [if_neg hne] at hq
    exact scaleGo_mem_pos draws ratio hr stks 0 hc q hq
  · intro h1
    unfold scale_sample_counts
    rw [if_pos h1]

/-- Witness for the amended C3 at a concrete mapping and ratio. -/
theorem c3_amended_witness :
    (∀ p ∈ ([("a", 2)] : StackToSampleCount), 0 ≤ p.2) ∧ (0 : ℚ) ≤ 0 ∧
    ((0 : ℚ) ≠ 1 →
      ∀ q ∈ scale_sample_counts [("a", 2)] 0 (fun _ => 0), 0 < q.2) ∧
    ((0 : ℚ) = 1 → scale_sample_counts [("a", 2)] 0 (fun _ => 0) = [("a", 2)]) :=
  ⟨by decide, le_refl 0,
   (c3_amended [("a", 2)] 0 (fun _ => 0) (by decide) (le_refl 0)).1,
   (c3_amended [("a", 2)] 0 (fun _ => 0) (by decide) (le_refl 0)).2⟩

/-! ## Claim C4 -/

/-- Claim C4: for every mapping with non-negative counts, every non-negative
ratio and every outcome of the draws, the total of the scaled mapping differs
from `ratio * total` by at most the number of input entries; and the expected
total under the randomized rounding (`expectedScaledSum`) equals
`ratio * total` — the scaling is unbiased. -/
theorem c4_scale_bound_unbiased (stks : StackToSampleCount) (ratio : ℚ)
    (draws : ℕ → ℚ) (hc : ∀ p ∈ stks, 0 ≤ p.2) (hr : 0 ≤ ratio) :
    |(sumCounts (scale_sample_counts stks ratio draws) : ℚ) -
        ratio * (sumCounts stks : ℚ)| ≤ stks.length ∧
    expectedScaledSum stks ratio = ratio * (sumCounts stks : ℚ) := by
  constructor
  · unfold scale_sample_counts
    by_cases h1 : ratio = 1
    · rw [if_pos h1, h1, one_mul, sub_self, abs_zero]
      exact Nat.cast_nonneg _
    · rw [if_neg h1]
      exact scaleGo_sum_bound draws ratio stks 0
  · exact expectedScaledSum_eq stks ratio hc hr

/-- Witness for C4 at a concrete mapping and ratio. -/
theorem c4_scale_bound_unbiased_witness :
    (∀ p ∈ ([("a", 3)] : StackToSampleCount), 0 ≤ p.2) ∧ (0 : ℚ) ≤ 1 ∧
    (|(sumCounts (scale_sample_counts [("a", 3)] 1 (fun _ => 0)) : ℚ) -
        1 * (sumCounts [("a", 3)] : ℚ)| ≤ ([("a", 3)] : StackToSampleCount).length ∧
      expectedScaledSum [("a", 3)] 1 = 1 * (sumCounts [("a", 3)] : ℚ)) :=
  ⟨by decide, zero_le_one,
   c4_scale_bound_unbiased [("a", 3)] 1 (fun _ => 0) (by decide) zero_le_one⟩

/-! ## Claim C1 -/

/-- C1 counterexample data: a reference (perf) profile that is present for the
pid but has a zero sample total — producible by the repository's own
multi-process parser from the line `"java-1/1;a;b 0"`. -/
def ppC1 : ProfileData :=
  { stks := [("java;a;b", 0)], appid := none, app_metadata := none }

/-- C1 counterexample data: an error-stack candidate profile with one
sample. -/
def profC1 : ProfileData :=
  { stks := [("ERROR;failed_to_attach", 1)], appid := none, app_metadata := none }

/-- Claim C1 counterexample: pid 1 is present in both mappings, the candidate
is an error stack with a positive total, yet because the reference total is
zero the source takes the scaling branch (`perf_samples_count > 0` fails), so
the processed result is the empty ratio-0 scaling — not the error-attach
combination, which would retain an entry. -/
theorem c1_counterexample :
    0 < sumCounts profC1.stks ∧ isErrorStack profC1.stks = true ∧
    alLookup [(1, ppC1)] 1 = some ppC1 ∧
    mergeProcess (fun _ _ => 0) [(1, ppC1)] [(1, profC1)] =
      some [(1, { profC1 with stks := [] })] ∧
    attachError ppC1.stks profC1.stks =
      [("ERROR;failed_to_attach;java;a;b", 0)] ∧
    ([] : StackToSampleCount) ≠ [("ERROR;failed_to_attach;java;a;b", 0)] := by
  refine ⟨by decide, by decide, by decide, ?_, by decide, by decide⟩
  have hstep : mergeStepStacks (fun _ => (0 : ℚ)) (some ppC1) profC1 = [] := by
    show (if 0 < sumCounts ppC1.stks ∧ isErrorStack profC1.stks = true then
        attachError ppC1.stks profC1.stks
      else
        scale_sample_counts profC1.stks
          ((sumCounts ppC1.stks : ℚ) / (sumCounts profC1.stks : ℚ))
          (fun _ => (0 : ℚ))) = []
    rw [if_neg (by decide)]
    have h0 : sumCounts ppC1.stks = 0 := by decide
    rw [h0]
    rw [show ((0 : Int) : ℚ) / ((sumCounts profC1.stks : Int) : ℚ) = 0 by
      rw [Int.cast_zero, zero_div]]
    exact scale_sample_counts_ratio_zero _ _
  show mergeGo (fun _ _ => 0) 0 [(1, ppC1)] [(1, profC1)] = _
  simp only [mergeGo]
  rw [if_neg (by decide), if_neg (by decide)]
  rw [show alLookup ([(1, ppC1)] : ProcessToProfileData) (1 : Int) = some ppC1
    from by decide]
  rw [hstep]
  rfl

/-- Claim C1 (amended): for every pid present in the candidate profiles with a
positive sample total and present in the reference profiles *with a strictly
positive reference sample total*, if the candidate's mapping is an error stack
then the processed result stored for that pid by the merge loop is the
error-attach combination of the reference's and candidate's mappings (not a
scaled mapping). -/
theorem c1_amended (draws : ℕ → ℕ → ℚ) (perf cand : ProcessToProfileData)
    (pid : Int) (pp prof : ProfileData) (M : ProcessToProfileData)
    (hnodup : (cand.map Prod.fst).Nodup)
    (hperf : alLookup perf pid = some pp)
    (hppos : 0 < sumCounts pp.stks)
    (hcand : alLookup cand pid = some prof)
    (herr : isErrorStack prof.stks = true)
    (hcpos : 0 < sumCounts prof.stks)
    (hM : mergeProcess draws perf cand = some M) :
    alLookup M pid = some { prof with stks := attachError pp.stks prof.stks } := by
  have hne : prof.stks ≠ [] := by
    intro hh
    rw [hh] at hcpos
    simp [sumCounts] at hcpos
  obtain ⟨j, hj⟩ := mergeGo_process draws pid prof cand 0 perf M hnodup hcand hne hM
  rw [hperf] at hj
  rw [mergeStepStacks_attach (draws j) pp prof hppos herr] at hj
  exact hj

/-- C1 witness data: the spec's own end-to-end example — reference
`{"m;n": 50}` and error-stack candidate `{"ERROR;failed_to_attach": 1}`. -/
def ppW : ProfileData :=
  { stks := [("m;n", 50)], appid := none, app_metadata := none }

/-- C1 witness data: the error-stack candidate. -/
def profW : ProfileData :=
  { stks := [("ERROR;failed_to_attach", 1)], appid := none, app_metadata := none }

/-- Witness for the amended C1 at the spec's example inputs. -/
theorem c1_amended_witness :
    (([(2, profW)] : ProcessToProfileData).map Prod.fst).Nodup ∧
    alLookup [(2, ppW)] 2 = some ppW ∧ 0 < sumCounts ppW.stks ∧
    alLookup [(2, profW)] 2 = some profW ∧ isErrorStack profW.stks = true ∧
    0 < sumCounts profW.stks ∧
    mergeProcess (fun _ _ => 0) [(2, ppW)] [(2, profW)] =
      some [(2, { profW with stks := attachError ppW.stks profW.stks })] ∧
    alLookup [(2, { profW with stks := attachError ppW.stks profW.stks })] 2 =
      some { profW with stks := attachError ppW.stks profW.stks } :=
  ⟨by decide, by decide, by decide, by decide, by decide, by decide, by decide,
   c1_amended (fun _ _ => 0) [(2, ppW)] [(2, profW)] 2 ppW profW
     [(2, { profW with stks := attachError ppW.stks profW.stks })]
     (by decide) (by decide) (by decide) (by decide) (by decide) (by decide)
     (by decide)⟩

/-! ## Claim C2 -/

/-- Claim C2: for every pid present in the candidate profiles with a positive
sample total but absent from the reference profiles, the merge stores an empty
mapping for that pid (the candidate's samples are all dropped by scaling with
ratio 0), so the pid contributes zero stack lines to the concatenated
artifact — which is still produced. -/
theorem c2_candidate_without_reference (draws : ℕ → ℕ → ℚ)
    (perf cand : ProcessToProfileData) (pid : Int) (prof : ProfileData)
    (M : ProcessToProfileData)
    (container_names_client : Option ContainerNamesClient)
    (enrichment_options : EnrichmentOptions) (metadata : Metadata)
    (metrics : Metrics) (mode : String)
    (hnodup : (cand.map Prod.fst).Nodup)
    (hperf : alLookup perf pid = none)
    (hcand : alLookup cand pid = some prof)
    (hcpos : 0 < sumCounts prof.stks)
    (hM : mergeProcess draws perf cand = some M)
    (hmode : alLookup metadata "profiling_mode" = some mode) :
    ∃ p' : ProfileData, alLookup M pid = some p' ∧ p'.stks = [] ∧
      (∀ e : PidStackEnrichment, pidStackLines enrichment_options e p' = []) ∧
      ∃ s, merge_profiles draws perf cand container_names_client
          enrichment_options metadata metrics = some s := by
  have hne : prof.stks ≠ [] := by
    intro hh
    rw [hh] at hcpos
    simp [sumCounts] at hcpos
  obtain ⟨j, hj⟩ := mergeGo_process draws pid prof cand 0 perf M hnodup hcand hne hM
  rw [hperf, mergeStepStacks_none] at hj
  refine ⟨{ prof with stks := [] }, hj, rfl, ?_, ?_⟩
  · intro e
    rfl
  · have hhdr : ∃ h, _make_profile_metadata container_names_client
        enrichment_options.container_names metadata metrics
        (concatFold M enrichment_options container_names_client).1
        enrichment_options.application_metadata = some h := by
      unfold _make_profile_metadata
      rw [hmode]
      exact ⟨_, rfl⟩
    obtain ⟨h, hh⟩ := hhdr
    refine ⟨String.intercalate "\n"
      (h :: (concatFold M enrichment_options container_names_client).2), ?_⟩
    unfold merge_profiles
    rw [hM]
    show concatenate_profiles M container_names_client enrichment_options
        metadata metrics = _
    show Option.map (fun ls => String.intercalate "\n" ls)
        (Option.map
          (fun hd =>
            hd :: (concatFold M enrichment_options container_names_client).2)
          (_make_profile_metadata container_names_client
            enrichment_options.container_names metadata metrics
            (concatFold M enrichment_options container_names_client).1
            enrichment_options.application_metadata)) = _
    rw [hh]
    rfl

/-- C2 witness data: a candidate profile for a pid perf never saw. -/
def profW2 : ProfileData :=
  { stks := [("java;x", 1)], appid := none, app_metadata := none }

/-- C2 witness enrichment options. -/
def eoW2 : EnrichmentOptions :=
  { profile_api_version := "v1", container_names := false,
    application_identifiers := false, application_metadata := false }

/-- Witness for C2 at concrete inputs (empty reference mapping). -/
theorem c2_candidate_without_reference_witness :
    (([(5, profW2)] : ProcessToProfileData).map Prod.fst).Nodup ∧
    alLookup ([] : ProcessToProfileData) 5 = none ∧
    alLookup [(5, profW2)] 5 = some profW2 ∧ 0 < sumCounts profW2.stks ∧
    mergeProcess (fun _ _ => 0) [] [(5, profW2)] =
      some [(5, { profW2 with stks := [] })] ∧
    alLookup [("profiling_mode", "cpu")] "profiling_mode" = some "cpu" ∧
    (∃ p' : ProfileData,
      alLookup [(5, { profW2 with stks := [] })] 5 = some p' ∧ p'.stks = [] ∧
      (∀ e : PidStackEnrichment, pidStackLines eoW2 e p' = []) ∧
      ∃ s, merge_profiles (fun _ _ => 0) [] [(5, profW2)] none eoW2
          [("profiling_mode", "cpu")] [] = some s) := by
  have hM : mergeProcess (fun _ _ => 0) [] [(5, profW2)] =
      some [(5, { profW2 with stks := [] })] := by
    show mergeGo (fun _ _ => 0) 0 [] [(5, profW2)] = _
    simp only [mergeGo]
    rw [if_neg (by decide), if_neg (by decide)]
    rw [show alLookup ([] : ProcessToProfileData) (5 : Int) = none from rfl]
    rw [mergeStepStacks_none]
    rfl
  refine ⟨by decide, rfl, by decide, by decide, hM, by decide, ?_⟩
  exact c2_candidate_without_reference (fun _ _ => 0) [] [(5, profW2)] 5 profW2
    [(5, { profW2 with stks := [] })] none eoW2 [("profiling_mode", "cpu")] []
    "cpu" (by decide) rfl (by decide) (by decide) hM (by decide)

/-! ## Claim C7 -/

/-- Claim C7: throughout any run of `concatenate_profiles` — i.e. after the
outer loop has consumed any prefix of the process list — the
application-metadata table keeps the `none` sentinel at index 0 and contains
no two structurally equal entries (in particular no two equal non-sentinel
documents, so equal documents from different processes resolve to the same
`pyIndex`). -/
theorem c7_metadata_table_invariant (process_profiles : ProcessToProfileData)
    (enrichment_options : EnrichmentOptions)
    (container_names_client : Option ContainerNamesClient) (n : ℕ) :
    ((concatFold (process_profiles.take n) enrichment_options
        container_names_client).1.head? = some none) ∧
    (concatFold (process_profiles.take n) enrichment_options
        container_names_client).1.Nodup := by
  unfold concatFold
  exact concatFold_table_inv enrichment_options container_names_client
    (process_profiles.take n) [none] [] rfl (by simp)

/-! ## Claim C8 -/

theorem append_semicolon_ne_empty (s : String) : s ++ ";" ≠ "" := by
  intro h
  have hdata := congrArg String.data h
  rw [String_data_append] at hdata
  rw [show (";" : String).data = [';'] from rfl,
    show ("" : String).data = [] from rfl] at hdata
  simp at hdata

/-- Claim C8: `_enrich_pid_stacks` appends the process's application-metadata
document to the table exactly when it is not already present — regardless of
protocol version or feature flags — while the metadata-index frame is the
non-empty string `"<idx>;"` exactly when the protocol version is not `"v1"`
and the application-metadata feature is enabled, and the empty string
otherwise.  (`applicationPart` is the source's `application_prefix`.) -/
theorem c8_enrichment_resolver (pid : Int) (profile : ProfileData)
    (enrichment_options : EnrichmentOptions)
    (container_names_client : Option ContainerNamesClient)
    (table : List (Option MetaDoc)) :
    (profile.app_metadata ∉ table →
      (_enrich_pid_stacks pid profile enrichment_options container_names_client
        table).2 = table ++ [profile.app_metadata]) ∧
    (profile.app_metadata ∈ table →
      (_enrich_pid_stacks pid profile enrichment_options container_names_client
        table).2 = table) ∧
    (enrichment_options.profile_api_version ≠ "v1" →
      enrichment_options.application_metadata = true →
      (_enrich_pid_stacks pid profile enrichment_options container_names_client
          table).1.applicationPart =
        toString (pyIndex
          (_enrich_pid_stacks pid profile enrichment_options
            container_names_client table).2 profile.app_metadata) ++ ";" ∧
      (_enrich_pid_stacks pid profile enrichment_options container_names_client
        table).1.applicationPart ≠ "") ∧
    ((enrichment_options.profile_api_version = "v1" ∨
        enrichment_options.application_metadata = false) →
      (_enrich_pid_stacks pid profile enrichment_options container_names_client
        table).1.applicationPart = "") := by
  have h2 : (_enrich_pid_stacks pid profile enrichment_options
      container_names_client table).2 =
    enrichTable table profile.app_metadata := rfl
  have h1 : (_enrich_pid_stacks pid profile enrichment_options
      container_names_client table).1.applicationPart =
    (if enrichment_options.profile_api_version ≠ "v1" ∧
        enrichment_options.application_metadata = true then
      toString (pyIndex (enrichTable table profile.app_metadata)
        profile.app_metadata) ++ ";"
    else "") := rfl
  refine ⟨?_, ?_, ?_, ?_⟩
  · intro h
    rw [h2]
    unfold enrichTable
    rw [if_neg h]
  · intro h
    rw [h2]
    unfold enrichTable
    rw [if_pos h]
  · intro hv hm
    constructor
    · rw [h1, h2, if_pos ⟨hv, hm⟩]
    · rw [h1, if_pos ⟨hv, hm⟩]
      exact append_semicolon_ne_empty _
  · intro h
    rw [h1, if_neg]
    rintro ⟨hv, hm⟩
    rcases h with h | h
    · exact hv h
    · rw [h] at hm
      exact Bool.false_ne_true hm

/-- C8 witness enrichment options: protocol v2 with the metadata feature
enabled. -/
def eoW8 : EnrichmentOptions :=
  { profile_api_version := "v2", container_names := false,
    application_identifiers := false, application_metadata := true }

/-- C8 witness enrichment options: protocol v1. -/
def eoW8v1 : EnrichmentOptions :=
  { profile_api_version := "v1", container_names := false,
    application_identifiers := false, application_metadata := true }

/-- C8 witness profile carrying a metadata document. -/
def profW8 : ProfileData :=
  { stks := [("a;b", 1)], appid := none, app_metadata := some [("k", "v")] }

/-- Witness for C8 at concrete inputs, exercising both the append and the
already-present paths and both prefix regimes. -/
theorem c8_enrichment_resolver_witness :
    (profW8.app_metadata ∉ ([none] : List (Option MetaDoc)) ∧
      (_enrich_pid_stacks 1 profW8 eoW8 none [none]).2 =
        [none] ++ [profW8.app_metadata]) ∧
    (profW8.app_metadata ∈ ([none, some [("k", "v")]] : List (Option MetaDoc)) ∧
      (_enrich_pid_stacks 1 profW8 eoW8 none [none, some [("k", "v")]]).2 =
        [none, some [("k", "v")]]) ∧
    ((_enrich_pid_stacks 1 profW8 eoW8 none [none]).1.applicationPart =
      toString (pyIndex (_enrich_pid_stacks 1 profW8 eoW8 none [none]).2
        profW8.app_metadata) ++ ";" ∧
      (_enrich_pid_stacks 1 profW8 eoW8 none [none]).1.applicationPart ≠ "") ∧
    (_enrich_pid_stacks 1 profW8 eoW8v1 none [none]).1.applicationPart = "" :=
  ⟨⟨by decide, (c8_enrichment_resolver 1 profW8 eoW8 none [none]).1 (by decide)⟩,
   ⟨by decide,
    (c8_enrichment_resolver 1 profW8 eoW8 none
      [none, some [("k", "v")]]).2.1 (by decide)⟩,
   (c8_enrichment_resolver 1 profW8 eoW8 none [none]).2.2.1 (by decide) rfl,
   (c8_enrichment_resolver 1 profW8 eoW8v1 none [none]).2.2.2 (Or.inl rfl)⟩

/-! ## Claim C10 -/

/-- Claim C10: `concatenate_profiles` (and therefore `merge_profiles`) has the
unstated precondition that the run metadata contains `"profiling_mode"`: when
the key is present the header line is produced (and the artifact with it);
when it is absent the lookup raises (`none`) instead of producing a
best-effort artifact. -/
theorem c10_profiling_mode_precondition (process_profiles : ProcessToProfileData)
    (container_names_client : Option ContainerNamesClient)
    (enrichment_options : EnrichmentOptions) (metadata : Metadata)
    (metrics : Metrics) :
    (∀ mode, alLookup metadata "profiling_mode" = some mode →
      ∃ hdr rest,
        concatenateLines process_profiles container_names_client
          enrichment_options metadata metrics = some (hdr :: rest) ∧
        concatenate_profiles process_profiles container_names_client
          enrichment_options metadata metrics =
          some (String.intercalate "\n" (hdr :: rest))) ∧
    (alLookup metadata "profiling_mode" = none →
      concatenate_profiles process_profiles container_names_client
        enrichment_options metadata metrics = none) ∧
    (alLookup metadata "profiling_mode" = none →
      ∀ (draws : ℕ → ℕ → ℚ) (perf cand : ProcessToProfileData),
        mergeProcess draws perf cand = some process_profiles →
        merge_profiles draws perf cand container_names_client
          enrichment_options metadata metrics = none) := by
  refine ⟨?_, ?_, ?_⟩
  · intro mode hmode
    have hh : ∃ h, _make_profile_metadata container_names_client
        enrichment_options.container_names metadata metrics
        (concatFold process_profiles enrichment_options
          container_names_client).1
        enrichment_options.application_metadata = some h := by
      unfold _make_profile_metadata
      rw [hmode]
      exact ⟨_, rfl⟩
    obtain ⟨h, hh⟩ := hh
    refine ⟨h, (concatFold process_profiles enrichment_options
      container_names_client).2, ?_, ?_⟩
    · show Option.map
          (fun hd =>
            hd :: (concatFold process_profiles enrichment_options
              container_names_client).2)
          (_make_profile_metadata container_names_client
            enrichment_options.container_names metadata metrics
            (concatFold process_profiles enrichment_options
              container_names_client).1
            enrichment_options.application_metadata) = _
      rw [hh]
      rfl
    · show Option.map (fun ls => String.intercalate "\n" ls)
          (Option.map
            (fun hd =>
              hd :: (concatFold process_profiles enrichment_options
                container_names_client).2)
            (_make_profile_metadata container_names_client
              enrichment_options.container_names metadata metrics
              (concatFold process_profiles enrichment_options
                container_names_client).1
              enrichment_options.application_metadata)) = _
      rw [hh]
      rfl
  · intro hmode
    have hh : _make_profile_metadata container_names_client
        enrichment_options.container_names metadata metrics
        (concatFold process_profiles enrichment_options
          container_names_client).1
        enrichment_options.application_metadata = none := by
      unfold _make_profile_metadata
      rw [hmode]
      rfl
    show Option.map (fun ls => String.intercalate "\n" ls)
        (Option.map
          (fun hd =>
            hd :: (concatFold process_profiles enrichment_options
              container_names_client).2)
          (_make_profile_metadata container_names_client
            enrichment_options.container_names metadata metrics
            (concatFold process_profiles enrichment_options
              container_names_client).1
            enrichment_options.application_metadata)) = none
    rw [hh]
    rfl
  · intro hmode draws perf cand hmp
    unfold merge_profiles
    rw [hmp]
    show concatenate_profiles process_profiles container_names_client
        enrichment_options metadata metrics = none
    have hh : _make_profile_metadata container_names_client
        enrichment_options.container_names metadata metrics
        (concatFold process_profiles enrichment_options
          container_names_client).1
        enrichment_options.application_metadata = none := by
      unfold _make_profile_metadata
      rw [hmode]
      rfl
    show Option.map (fun ls => String.intercalate "\n" ls)
        (Option.map
          (fun hd =>
            hd :: (concatFold process_profiles enrichment_options
              container_names_client).2)
          (_make_profile_metadata container_names_client
            enrichment_options.container_names metadata metrics
            (concatFold process_profiles enrichment_options
              container_names_client).1
            enrichment_options.application_metadata)) = none
    rw [hh]
    rfl

/-- C10 witness enrichment options. -/
def eoW10 : EnrichmentOptions :=
  { profile_api_version := "v1", container_names := false,
    application_identifiers := false, application_metadata := false }

/-- Witness for C10 at concrete inputs: the key present (header produced) and
absent (lookup error propagates through concatenation and merge). -/
theorem c10_profiling_mode_precondition_witness :
    alLookup [("profiling_mode", "cpu")] "profiling_mode" = some "cpu" ∧
    (∃ hdr rest,
      concatenateLines [] none eoW10 [("profiling_mode", "cpu")] [] =
        some (hdr :: rest) ∧
      concatenate_profiles [] none eoW10 [("profiling_mode", "cpu")] [] =
        some (String.intercalate "\n" (hdr :: rest))) ∧
    alLookup ([] : Metadata) "profiling_mode" = none ∧
    concatenate_profiles [] none eoW10 [] [] = none ∧
    merge_profiles (fun _ _ => 0) [] [] none eoW10 [] [] = none :=
  ⟨by decide,
   (c10_profiling_mode_precondition [] none eoW10 [("profiling_mode", "cpu")]
     []).1 "cpu" (by decide),
   rfl,
   (c10_profiling_mode_precondition [] none eoW10 [] []).2.1 rfl,
   (c10_profiling_mode_precondition [] none eoW10 [] []).2.2 rfl
     (fun _ _ => 0) [] [] rfl⟩
